import Mathlib

/-!
Verification development for the VoiceBot Texas Hold'em engine.

Shallow embedding of the poker core found in `poker_bot.py`,
`poker_actions.py` and `poker_room.py`:

* the 5-card evaluator (`straightflush` .. `highcard`, `evaluate_hand`)
  and the best-5-of-7 selector (`best_hand`), translated from the
  Rosetta-Code-derived functions shared by `poker_bot.py` and
  `poker_actions.py`;
* the betting loop (`PokerGame.betting_round`), chip movement
  (`PokerGame.place_bet`), blind posting and the street/showdown
  sequencing of `PokerGame.start_hand` (poker_bot variant);
* the seating helpers of `poker_room.py` (`get_positions`,
  `get_next_to_act`, `place_blind`);
* the raise modal validation of `poker_actions.py`
  (`BetModal.on_submit`, `BettingRound.validate_raise`).

Modelling conventions: Python ints are `Int`; Python lists are `List`;
Python dicts keyed by player id are functions `Nat → _`; Python sets of
player ids are `List Nat` used as sets (the iteration order of a Python
set is unspecified; wherever the source iterates a set we fix the
first-occurrence order and note in place why the result does not depend
on the choice for the inputs the program feeds it); the source's
unbounded `while True` loops take a fuel argument and return `none`
when fuel or the supplied action script runs out; `random.shuffle` is
modelled by taking the already-shuffled deck as an input.
-/

/-- Suits, `suits = ['♥', '♦', '♣', '♠']` in the source. -/
inductive Suit where
  | hearts
  | diamonds
  | clubs
  | spades
deriving DecidableEq, Repr

/-- Faces, `faces = '2 3 4 5 6 7 8 9 10 j q k a'.split()` in the source. -/
inductive Face where
  | f2
  | f3
  | f4
  | f5
  | f6
  | f7
  | f8
  | f9
  | f10
  | j
  | q
  | k
  | a
deriving DecidableEq, Repr, Fintype

/-- `Card = namedtuple('Card', 'face, suit')`. -/
structure Card where
  face : Face
  suit : Suit
deriving DecidableEq, Repr

/-- The high-ace face order `faces` of the source. -/
def faces : List Face :=
  [Face.f2, Face.f3, Face.f4, Face.f5, Face.f6, Face.f7, Face.f8, Face.f9,
   Face.f10, Face.j, Face.q, Face.k, Face.a]

/-- The low-ace face order `lowaces` of the source. -/
def lowaces : List Face :=
  [Face.a, Face.f2, Face.f3, Face.f4, Face.f5, Face.f6, Face.f7, Face.f8,
   Face.f9, Face.f10, Face.j, Face.q, Face.k]

/-- `faces.index(f)` of the source: the position of a face in the
high-ace order. -/
def faceIndex : Face → Nat
  | Face.f2 => 0
  | Face.f3 => 1
  | Face.f4 => 2
  | Face.f5 => 3
  | Face.f6 => 4
  | Face.f7 => 5
  | Face.f8 => 6
  | Face.f9 => 7
  | Face.f10 => 8
  | Face.j => 9
  | Face.q => 10
  | Face.k => 11
  | Face.a => 12

/-- Python compares the suit strings by code point; the code points of
♠, ♣, ♥, ♦ order them as spades < clubs < hearts < diamonds. -/
def suitIndex : Suit → Nat
  | Suit.spades => 0
  | Suit.clubs => 1
  | Suit.hearts => 2
  | Suit.diamonds => 3

/-- The sort key `(faces.index(card.face), card.suit)` used by
`sorted(hand, key=...)` in `straightflush` and `straight`, as a Bool
comparison (lexicographic pair order, exactly Python tuple `<=`). -/
def cardLeB (c d : Card) : Bool :=
  decide (faceIndex c.face < faceIndex d.face) ||
  (decide (faceIndex c.face = faceIndex d.face) &&
   decide (suitIndex c.suit ≤ suitIndex d.suit))

/-- Insert a card into an already sorted list (ascending by `cardLeB`). -/
def insertCard (c : Card) : List Card → List Card
  | [] => [c]
  | d :: ds => if cardLeB c d then c :: d :: ds else d :: insertCard c ds

/-- `sorted(hand, key=lambda card: (faces.index(card.face), card.suit))`.
Python's sort is stable; for equal keys the cards are identical, so any
correct sort by this key yields the same list. -/
def sortHand (hand : List Card) : List Card :=
  hand.foldr insertCard []

/-- Insert a face into a descending-sorted face list. -/
def insertFaceDesc (f : Face) : List Face → List Face
  | [] => [f]
  | g :: gs => if faceIndex g ≤ faceIndex f then f :: g :: gs else g :: insertFaceDesc f gs

/-- `sorted(fs, key=lambda f: faces.index(f), reverse=True)`. -/
def sortFacesDesc (l : List Face) : List Face :=
  l.foldr insertFaceDesc []

/-- Does `l` start with the tokens of `small`? -/
def leadsSeq : List Face → List Face → Bool
  | [], _ => true
  | _ :: _, [] => false
  | x :: xs, y :: ys => x == y && leadsSeq xs ys

/-- The source tests `' '.join(face_strings) in ' '.join(order)`.
Because every face token starts with a character ('2'-'9', '1', 'j',
'q', 'k', 'a') that occurs in the joined order string only at token
starts, the string containment holds exactly when the face-token
sequence occurs as a consecutive run; that run containment is what we
model. -/
def seqIn (l : List Face) : List Face → Bool
  | [] => leadsSeq l []
  | y :: ys => leadsSeq l (y :: ys) || seqIn l ys

/-- Python `set(...)` materialised in first-occurrence order.  The
source only ever draws from such a set an element selected by a
deterministic property (the face with count 4 or 3, the sole leftover
element, the sorted pairs), so the unspecified Python set order never
reaches the result; comments at each use justify this. -/
def uniqAux [BEq α] : List α → List α → List α
  | [], acc => acc.reverse
  | x :: xs, acc => if acc.contains x then uniqAux xs acc else uniqAux xs (x :: acc)

/-- First-occurrence deduplication, modelling `set(...)` (see `uniqAux`). -/
def uniqList [BEq α] (l : List α) : List α :=
  uniqAux l []

/-- `straightflush(hand)` of the source.  Note the adaptation bug kept
faithfully: the sort key always uses the high-ace `faces.index`, even
when the low-ace order `lowaces` is selected for the containment test.
Returns the tiebreak list, `none` for `False`; the empty hand (which
would raise IndexError in Python) is mapped to `none`. -/
def straightflush (hand : List Card) : Option (List Face) :=
  let f := if hand.any (fun c => c.face == Face.f2) then lowaces else faces
  let ordered := sortHand hand
  match ordered with
  | [] => none
  | first :: rest =>
    if rest.all (fun c => c.suit == first.suit) &&
       seqIn ((first :: rest).map (fun c => c.face)) f
    then some [(List.getLastD rest first).face]
    else none

/-- `fourofakind(hand)` of the source.  The Python loop scans the
2-element face set for the face with count 4; at most one face can have
count 4, so the scan order is irrelevant and `find?` over the
first-occurrence list is equivalent.  `allftypes.pop()` then pops the
single remaining face. -/
def fourofakind (hand : List Card) : Option (List Face) :=
  let allfaces := hand.map (fun c => c.face)
  let allftypes := uniqList allfaces
  if allftypes.length ≠ 2 then none
  else
    match allftypes.find? (fun f => allfaces.count f == 4) with
    | some f => some [f, List.headD (allftypes.filter (fun g => !(g == f))) f]
    | none => none

/-- `fullhouse(hand)` of the source (same set-scan argument as
`fourofakind`, with count 3). -/
def fullhouse (hand : List Card) : Option (List Face) :=
  let allfaces := hand.map (fun c => c.face)
  let allftypes := uniqList allfaces
  if allftypes.length ≠ 2 then none
  else
    match allftypes.find? (fun f => allfaces.count f == 3) with
    | some f => some [f, List.headD (allftypes.filter (fun g => !(g == f))) f]
    | none => none

/-- `flush_hand(hand)` of the source. -/
def flush_hand (hand : List Card) : Option (List Face) :=
  let allstypes := uniqList (hand.map (fun c => c.suit))
  if allstypes.length = 1 then some (sortFacesDesc (hand.map (fun c => c.face)))
  else none

/-- `straight(hand)` of the source, with the same faithful sort-key
detail as `straightflush`. -/
def straight (hand : List Card) : Option (List Face) :=
  let f := if hand.any (fun c => c.face == Face.f2) then lowaces else faces
  let ordered := sortHand hand
  match ordered with
  | [] => none
  | first :: rest =>
    if seqIn ((first :: rest).map (fun c => c.face)) f
    then some [(List.getLastD rest first).face]
    else none

/-- `threeofakind(hand)` of the source.  The kickers are the remaining
face types sorted descending, which is order-independent because the
types are distinct. -/
def threeofakind (hand : List Card) : Option (List Face) :=
  let allfaces := hand.map (fun c => c.face)
  let allftypes := uniqList allfaces
  if allftypes.length ≤ 2 then none
  else
    match allftypes.find? (fun f => allfaces.count f == 3) with
    | some f => some (f :: sortFacesDesc (allftypes.filter (fun g => !(g == f))))
    | none => none

/-- `twopair(hand)` of the source.  `other = list(allftypes - set(pairs))`
is a singleton for any 5-card hand with two pairs, so its unspecified
Python order never matters there; we keep first-occurrence order. -/
def twopair (hand : List Card) : Option (List Face) :=
  let allfaces := hand.map (fun c => c.face)
  let allftypes := uniqList allfaces
  let pairs := allftypes.filter (fun f => allfaces.count f == 2)
  if pairs.length ≠ 2 then none
  else some (sortFacesDesc pairs ++ allftypes.filter (fun f => !(pairs.contains f)))

/-- `onepair(hand)` of the source. -/
def onepair (hand : List Card) : Option (List Face) :=
  let allfaces := hand.map (fun c => c.face)
  let allftypes := uniqList allfaces
  let pairs := allftypes.filter (fun f => allfaces.count f == 2)
  if pairs.length ≠ 1 then none
  else some (pairs ++ sortFacesDesc (allftypes.filter (fun f => !(pairs.contains f))))

/-- `highcard(hand)` of the source (always succeeds). -/
def highcard (hand : List Card) : List Face :=
  sortFacesDesc (hand.map (fun c => c.face))

/-- `evaluate_hand(hand)`: try the checks in `handrankorder` and return
the first match as `(handrankorder.index(func), tiebreak)`.  `highcard`
always matches, so the Python `return None` fallthrough is dead and the
function is total. -/
def evaluate_hand (hand : List Card) : Nat × List Face :=
  match straightflush hand with
  | some t => (0, t)
  | none =>
    match fourofakind hand with
    | some t => (1, t)
    | none =>
      match fullhouse hand with
      | some t => (2, t)
      | none =>
        match flush_hand hand with
        | some t => (3, t)
        | none =>
          match straight hand with
          | some t => (4, t)
          | none =>
            match threeofakind hand with
            | some t => (5, t)
            | none =>
              match twopair hand with
              | some t => (6, t)
              | none =>
                match onepair hand with
                | some t => (7, t)
                | none => (8, highcard hand)

/-- `itertools.combinations(l, k)` in Python's enumeration order
(lexicographic by positions, each subsequence keeping list order). -/
def combinations : Nat → List α → List (List α)
  | 0, _ => [[]]
  | _ + 1, [] => []
  | k + 1, x :: xs => (combinations k xs).map (fun c => x :: c) ++ combinations (k + 1) xs

/-- `current_key = (-rank_index, tuple(faces.index(f) for f in tie))`. -/
def keyOf (rt : Nat × List Face) : Int × List Nat :=
  (-(rt.1 : Int), rt.2.map faceIndex)

/-- Python `>` on tuples of ints: head comparison first, and a longer
tuple beats its own proper initial segment. -/
def natListGt : List Nat → List Nat → Bool
  | [], _ => false
  | _ :: _, [] => true
  | x :: xs, y :: ys =>
    if y < x then true else if x = y then natListGt xs ys else false

/-- Python `>` on the key pairs `(-rank_index, tie_indices)`. -/
def keyGt (x y : Int × List Nat) : Bool :=
  if y.1 < x.1 then true else if x.1 = y.1 then natListGt x.2 y.2 else false

/-- The accumulator loop of `best_hand`: `best_key` starts as `None`
and is replaced whenever `current_key > best_key`. -/
def bh_loop : List (List Card) → Option ((Int × List Nat) × (Nat × List Face)) →
    Option ((Int × List Nat) × (Nat × List Face))
  | [], best => best
  | five :: rest, best =>
    let ev := evaluate_hand five
    let ck := keyOf ev
    match best with
    | none => bh_loop rest (some (ck, ev))
    | some (bk, bev) =>
      if keyGt ck bk then bh_loop rest (some (ck, ev)) else bh_loop rest (some (bk, bev))

/-- `best_hand(seven_cards)`: fold the loop over all 5-card
combinations and return `(best_rank, best_tie)`.  With fewer than five
cards Python would return `(math.inf, None)`; we return `none` there.
The kept element is the first one attaining the maximal key, and equal
keys force equal `(rank, tie)` payloads, so the enumeration order
cannot change the result. -/
def best_hand (seven_cards : List Card) : Option (Nat × List Face) :=
  (bh_loop (combinations 5 seven_cards) none).map (fun x => x.2)

/-- The spec-side strict comparison on tiebreak sequences: first
strictly greater face (by rank) wins; a longer sequence beats its own
proper initial segment. -/
def tieGtB : List Face → List Face → Bool
  | [], _ => false
  | _ :: _, [] => true
  | x :: xs, y :: ys =>
    if faceIndex y < faceIndex x then true
    else if faceIndex x = faceIndex y then tieGtB xs ys else false

/-- The evaluator's strict ordering on results `(rank_index, tie)`:
a smaller `rank_index` is a stronger category (index 0 is the straight
flush), and on equal categories the tiebreak sequences are compared
lexicographically. -/
def handGtB (x y : Nat × List Face) : Bool :=
  if x.1 < y.1 then true else if x.1 = y.1 then tieGtB x.2 y.2 else false

/-- "Greater or equal" for evaluator results: equal, or strictly
stronger under `handGtB`.  This is the ordering named by the claims:
category ordinal first (higher category wins), then the tiebreak
sequences lexicographically. -/
def handGe (x y : Nat × List Face) : Prop :=
  x = y ∨ handGtB x y = true

/-! ## The game state of `PokerGame` (poker_bot.py) -/

/-- The hand-relevant mutable state of `PokerGame.__init__` /
`start_hand`.  Players are identified by their numeric ids in seat
order; the per-player dicts become functions from ids. -/
structure GameState where
  players : List Nat
  chips : Nat → Int
  playerCards : Nat → List Card
  community : List Card
  deck : List Card
  pot : Int
  currentBet : Int
  playerBets : Nat → Int
  folded : List Nat
  allIn : List Nat
  dealerIndex : Nat
  sbAmount : Int
  bbAmount : Int

/-- `PokerGame.get_active_count`. -/
def get_active_count (st : GameState) : Nat :=
  (st.players.filter (fun p => !(st.folded.contains p))).length

/-- `PokerGame.place_bet` (the chip-moving core, without the
PlayerManager mirror write): cap the amount at the player's stack,
marking the player all-in when capped, then move the chips. -/
def place_bet (st : GameState) (p : Nat) (amount : Int) : GameState :=
  let amt := if st.chips p < amount then st.chips p else amount
  { st with
    chips := fun q => if q = p then st.chips p - amt else st.chips q,
    playerBets := fun q => if q = p then st.playerBets p + amt else st.playerBets q,
    pot := st.pot + amt,
    allIn := if st.chips p < amount then List.insert p st.allIn else st.allIn }

/-- The actions a prompted player can complete through `PokerView` /
`BetModal` in poker_bot.py: fold, the Check/Call button, or a raise-to
amount submitted through the modal. -/
inductive PAction where
  | fold
  | callCheck
  | raiseTo (amount : Int)
deriving DecidableEq, Repr

/-- Applying one completed player action, as the `PokerView` callbacks
do: `fold` adds to the folded set; Check/Call bets
`current_bet - player_bets[p]`; a raise below
`min_raise = current_bet*2 - player_bets[p]` is refused by the modal
with the state unchanged, otherwise `amount - player_bets[p]` is bet
and `current_bet` becomes `amount`. -/
def applyAction (st : GameState) (p : Nat) : PAction → GameState
  | PAction.fold => { st with folded := List.insert p st.folded }
  | PAction.callCheck => place_bet st p (st.currentBet - st.playerBets p)
  | PAction.raiseTo amount =>
    if amount < st.currentBet * 2 - st.playerBets p then st
    else
      let st1 := place_bet st p (amount - st.playerBets p)
      { st1 with currentBet := amount }

/-- The loop-exit test of `PokerGame.betting_round` (line 238):
`all(self.player_bets[p.id] == self.current_bet or p.id in self.all_in
for p in active_players)`. -/
def allMatched (st : GameState) : Bool :=
  (st.players.filter (fun p => !(st.folded.contains p))).all
    (fun p => st.playerBets p == st.currentBet || st.allIn.contains p)

/-- `PokerGame.betting_round(start_index)`.  The `while True` loop is
driven by fuel; the prompted players' choices come from `script`; the
returned list records, in order, the players who were prompted.
Exhausting fuel or the script models the hand hanging on
`view.wait()`.  With an empty player list the Python `all([])` is
`True` and the loop breaks before the `i % 0` division, which the
`allMatched` test reproduces. -/
def betting_round : Nat → GameState → Nat → List PAction → List Nat →
    Option (GameState × List Nat)
  | 0, _, _, _, _ => none
  | fuel + 1, st, i, script, actors =>
    if allMatched st then some (st, actors.reverse)
    else
      let p := st.players.getD (i % st.players.length) 0
      if st.folded.contains p ||
         (st.allIn.contains p && decide (st.currentBet ≤ st.playerBets p)) then
        betting_round fuel st (i + 1) script actors
      else
        match script with
        | [] => none
        | act :: rest => betting_round fuel (applyAction st p act) (i + 1) rest (p :: actors)

/-- `self.deck.pop()`: Python pops from the end of the list.  An empty
deck (IndexError in Python) yields `none`. -/
def popEnd (l : List Card) : Option Card × List Card :=
  (l.getLast?, l.dropLast)

/-- The hole-card dealing loop of `start_hand`: two pops per player, in
seat order. -/
def deal_hole_cards (st : GameState) : GameState :=
  st.players.foldl
    (fun s p =>
      let r1 := popEnd s.deck
      let r2 := popEnd r1.2
      { s with
        deck := r2.2,
        playerCards := fun q => if q = p then r1.1.toList ++ r2.1.toList else s.playerCards q })
    st

/-- `sb_index = (self.dealer_index + 1) % len(self.players)`. -/
def sb_index (st : GameState) : Nat :=
  (st.dealerIndex + 1) % st.players.length

/-- `bb_index = (sb_index + 1) % len(self.players)`. -/
def bb_index (st : GameState) : Nat :=
  (sb_index st + 1) % st.players.length

/-- The blind-posting block of `PokerGame.start_hand` (lines 171-176):
small blind from seat `sb_index`, big blind from seat `bb_index`, then
`current_bet = bb_amount`. -/
def post_blinds (st : GameState) : GameState :=
  let st1 := place_bet st (st.players.getD (sb_index st) 0) st.sbAmount
  let st2 := place_bet st1 (st1.players.getD (bb_index st1) 0) st.bbAmount
  { st2 with currentBet := st.bbAmount }

/-- The flop deal: one burn pop, then `community.extend` of three pops. -/
def deal_flop (st : GameState) : GameState :=
  let b := popEnd st.deck
  let r1 := popEnd b.2
  let r2 := popEnd r1.2
  let r3 := popEnd r2.2
  { st with
    deck := r3.2,
    community := st.community ++ (r1.1.toList ++ r2.1.toList ++ r3.1.toList) }

/-- The turn/river deal: one burn pop, then one community pop. -/
def deal_one (st : GameState) : GameState :=
  let b := popEnd st.deck
  let r := popEnd b.2
  { st with deck := r.2, community := st.community ++ r.1.toList }

/-- One post-preflop street of `start_hand`: if more than one player is
still unfolded, deal the street and run a betting round starting one
seat after the dealer; otherwise do nothing. -/
def street_round (fuel : Nat) (deal : GameState → GameState) (script : List PAction)
    (st : GameState) : Option GameState :=
  if 1 < get_active_count st then
    (betting_round fuel (deal st) ((st.dealerIndex + 1) % st.players.length) script []).map
      (fun r => r.1)
  else some st

/-- The key Python's `max(..., key=key_func)` / winner filter compare:
`best_hand` results mapped through `key_func`.  A missing result
(impossible for real 7-card inputs) compares as never-greater. -/
def optKeyGt : Option (Int × List Nat) → Option (Int × List Nat) → Bool
  | some x, some y => keyGt x y
  | _, _ => false

/-- `PokerGame.showdown` (the chip-moving core): evaluate each
non-folded player's best 5 of hole+community, take every player whose
key equals the maximal key (Python `max` keeps the first maximum),
give each winner `pot // len(winners)` (Python floor division, hence
`Int.fdiv`).  An empty remaining list (ValueError in Python) leaves
the state unchanged. -/
def showdown (st : GameState) : GameState :=
  let remaining := st.players.filter (fun p => !(st.folded.contains p))
  let key_func : Nat → Option (Int × List Nat) := fun pid =>
    (best_hand (st.playerCards pid ++ st.community)).map keyOf
  match remaining with
  | [] => st
  | r0 :: rest =>
    let max_pid := rest.foldl (fun best pid =>
      if optKeyGt (key_func pid) (key_func best) then pid else best) r0
    let max_value := key_func max_pid
    let winners := remaining.filter (fun pid => key_func pid == max_value)
    let share := Int.fdiv st.pot winners.length
    { st with chips := fun pid =>
        if winners.contains pid then st.chips pid + share else st.chips pid }

/-- The hand-end block of `start_hand` (lines 202-206): rotate the
dealer one seat forward modulo the pre-filter seat count, then drop
every player whose stack is not positive ("Remove busted players"). -/
def handEnd (st : GameState) : GameState :=
  let st1 := { st with dealerIndex := (st.dealerIndex + 1) % st.players.length }
  { st1 with players := st1.players.filter (fun p => decide (0 < st1.chips p)) }

/-- `PokerGame.start_hand` from the per-hand resets through the busted
filter.  The shuffled deck is taken from `st0.deck`; the four scripts
supply the players' choices for the four betting rounds. -/
def start_hand (fuel : Nat) (st0 : GameState)
    (s1 s2 s3 s4 : List PAction) : Option GameState :=
  let stA := { st0 with
               community := [], pot := 0, currentBet := 0,
               playerBets := fun _ => 0, folded := [], allIn := [] }
  let stB := post_blinds (deal_hole_cards stA)
  match (betting_round fuel stB ((bb_index stB + 1) % stB.players.length) s1 []).map
      (fun r => r.1) with
  | none => none
  | some stC =>
    match street_round fuel deal_flop s2 stC with
    | none => none
    | some stD =>
      match street_round fuel deal_one s3 stD with
      | none => none
      | some stE =>
        match street_round fuel deal_one s4 stE with
        | none => none
        | some stF =>
          some (handEnd (if 1 < get_active_count stF then showdown stF else stF))

/-- The operations that move chips out of a player's stack in the core:
a completed player action (bet/call/raise/fold through `place_bet`) or
a blind posted via `place_bet` in `start_hand`. -/
inductive ChipOp where
  | act (p : Nat) (a : PAction)
  | blindBet (p : Nat) (amount : Int)

/-- Apply one chip-moving operation. -/
def applyChipOp (st : GameState) : ChipOp → GameState
  | ChipOp.act p a => applyAction st p a
  | ChipOp.blindBet p amount => place_bet st p amount

/-! ## poker_room.py: seating, turn order, blinds -/

/-- `GameRound` of poker_room.py. -/
inductive GameRound where
  | preflop
  | flop
  | turn
  | river
deriving DecidableEq, Repr

/-- The fields of `PokerRoom` that `get_next_to_act` reads and writes. -/
structure RoomState where
  seatedPlayers : List Nat
  dealerPosition : Nat
  currentRound : GameRound
  actionPosition : Nat
deriving DecidableEq, Repr

/-- The value `self.action_position` holds after the initialisation
branches of `get_next_to_act` (the `if self.action_position == 0`
resets) and before the read. -/
def effective_action_position (st : RoomState) : Nat :=
  let n := st.seatedPlayers.length
  if n = 2 then
    if st.currentRound = GameRound.preflop then
      if st.actionPosition = 0 then (st.dealerPosition + 1) % 2 else st.actionPosition
    else
      if st.actionPosition = 0 then st.dealerPosition else st.actionPosition
  else
    if st.currentRound = GameRound.preflop then
      if st.actionPosition = 0 then (st.dealerPosition + 3) % n else st.actionPosition
    else
      if st.actionPosition = 0 then (st.dealerPosition + 1) % n else st.actionPosition

/-- `PokerRoom.get_next_to_act`: returns the player at the (possibly
re-initialised) action position and stores the position advanced by
one seat.  The Python method mutates `self.action_position`; here the
updated room state is returned alongside the player. -/
def get_next_to_act (st : RoomState) : Option Nat × RoomState :=
  if st.seatedPlayers = [] then (none, st)
  else
    let ap := effective_action_position st
    (some (st.seatedPlayers.getD ap 0),
     { st with actionPosition := (ap + 1) % st.seatedPlayers.length })

/-- The positions dict built by `PokerRoom.get_positions`; optional
entries are the keys only present at larger table sizes. -/
structure Positions where
  dealer : Nat
  sb : Nat
  bb : Nat
  utg : Option Nat
  mp : Option Nat
  co : Option Nat
deriving DecidableEq, Repr

/-- `PokerRoom.get_positions`: heads-up, the dealer posts the small
blind and the other seat the big blind; with 3+ players the blinds are
the two seats after the dealer.  Python returns an empty dict for an
empty room and also (falling through both branches) for a single
seated player; both are `none` here. -/
def get_positions (seated : List Nat) (dealer_position : Nat) : Option Positions :=
  if seated = [] then none
  else
    let n := seated.length
    if n = 2 then
      some ⟨seated.getD dealer_position 0, seated.getD dealer_position 0,
            seated.getD ((dealer_position + 1) % 2) 0, none, none, none⟩
    else if 3 ≤ n then
      some ⟨seated.getD dealer_position 0,
            seated.getD ((dealer_position + 1) % n) 0,
            seated.getD ((dealer_position + 2) % n) 0,
            some (seated.getD ((dealer_position + 3) % n) 0),
            if 4 ≤ n then some (seated.getD ((dealer_position + 4) % n) 0) else none,
            if 5 ≤ n then some (seated.getD ((dealer_position + 5) % n) 0) else none⟩
    else none

/-- The fields of `PokerRoom` that `place_blind` touches: the room
chip dict (`self.players`, `none` for an id not in the room) and the
betting state. -/
structure RoomBetState where
  players : Nat → Option Int
  pot : Int
  currentBet : Int
  playerBets : Nat → Int

/-- `PokerRoom.place_blind`: reject an unseated player or one with
fewer chips than the blind (ValueError, state unchanged); otherwise
move the blind from the stack into the pot and record it. -/
def place_blind (r : RoomBetState) (pid : Nat) (amount : Int) :
    Except String RoomBetState :=
  match r.players pid with
  | none => Except.error "player is not in the game"
  | some c =>
    if c < amount then Except.error "not enough chips for blind"
    else Except.ok
      { players := fun x => if x = pid then some (c - amount) else r.players x,
        pot := r.pot + amount,
        currentBet := amount,
        playerBets := fun x => if x = pid then amount else r.playerBets x }

/-! ## poker_actions.py: raise validation -/

/-- `BettingRound.validate_raise`: the raise-to amount must exceed the
current bet by at least the last bet/raise size. -/
def validate_raise (current_bet last_raise_amount amount : Int) : Bool :=
  decide (last_raise_amount ≤ amount - current_bet)

/-- The minimum `ActionView.raise_bet` passes to the modal:
`current_bet + last_raise_amount`. -/
def raise_minimum (current_bet last_raise_amount : Int) : Int :=
  current_bet + last_raise_amount

/-- `BetModal.on_submit` on an integer submission: an amount below the
minimum is refused (ephemeral error, no state change, modelled as
`none`); otherwise the amount is accepted, capped at the player's
remaining chips with the all-in flag set when it exceeds them. -/
def on_submit (minimum amount max_chips : Int) : Option (Int × Bool) :=
  if amount < minimum then none
  else if max_chips < amount then some (max_chips, true)
  else some (amount, false)

/-! ## Concrete instances used by the claim theorems -/

/-- The wheel `A,2,3,4,5` with two distinct suits. -/
def wheelHand : List Card :=
  [⟨Face.a, Suit.hearts⟩, ⟨Face.f2, Suit.diamonds⟩, ⟨Face.f3, Suit.clubs⟩,
   ⟨Face.f4, Suit.spades⟩, ⟨Face.f5, Suit.hearts⟩]

/-- A fresh two-player game: ids 0 (dealer seat) and 1, 1000 chips
each, blinds 10/20, an (arbitrary) shuffled deck of enough cards for
the hole-card deal. -/
def c1St : GameState :=
  { players := [0, 1],
    chips := fun _ => 1000,
    playerCards := fun _ => [],
    community := [],
    deck := [⟨Face.f2, Suit.hearts⟩, ⟨Face.f3, Suit.hearts⟩, ⟨Face.f4, Suit.hearts⟩,
             ⟨Face.f5, Suit.hearts⟩, ⟨Face.f6, Suit.hearts⟩, ⟨Face.f7, Suit.hearts⟩,
             ⟨Face.f8, Suit.hearts⟩, ⟨Face.f9, Suit.hearts⟩],
    pot := 0, currentBet := 0,
    playerBets := fun _ => 0,
    folded := [], allIn := [],
    dealerIndex := 0, sbAmount := 10, bbAmount := 20 }

/-- A three-player preflop state right after the blinds: dealer seat 0,
small blind seat 1 (10 in), big blind seat 2 (20 in). -/
def c4St : GameState :=
  post_blinds
    { players := [0, 1, 2],
      chips := fun _ => 1000,
      playerCards := fun _ => [],
      community := [], deck := [],
      pot := 0, currentBet := 0,
      playerBets := fun _ => 0,
      folded := [], allIn := [],
      dealerIndex := 0, sbAmount := 10, bbAmount := 20 }

/-- A river state with two live players who both play the board's
broadway straight, and a pot of 25 chips. -/
def c3St : GameState :=
  { players := [1, 2],
    chips := fun _ => 100,
    playerCards := fun p =>
      if p = 1 then [⟨Face.f2, Suit.diamonds⟩, ⟨Face.f3, Suit.clubs⟩]
      else if p = 2 then [⟨Face.f2, Suit.hearts⟩, ⟨Face.f3, Suit.spades⟩]
      else [],
    community := [⟨Face.a, Suit.hearts⟩, ⟨Face.k, Suit.diamonds⟩, ⟨Face.q, Suit.clubs⟩,
                  ⟨Face.j, Suit.spades⟩, ⟨Face.f10, Suit.hearts⟩],
    deck := [],
    pot := 25, currentBet := 0,
    playerBets := fun _ => 0,
    folded := [], allIn := [],
    dealerIndex := 0, sbAmount := 10, bbAmount := 20 }

/-- A two-player game (ids 5 and 7) with the dealer at seat 0, for the
heads-up blind-posting check. -/
def c6St : GameState :=
  { players := [5, 7],
    chips := fun _ => 1000,
    playerCards := fun _ => [],
    community := [], deck := [],
    pot := 0, currentBet := 0,
    playerBets := fun _ => 0,
    folded := [], allIn := [],
    dealerIndex := 0, sbAmount := 10, bbAmount := 20 }

/-- A three-player room at preflop with a fresh action cursor. -/
def c8St : RoomState :=
  { seatedPlayers := [10, 20, 30], dealerPosition := 0,
    currentRound := GameRound.preflop, actionPosition := 0 }

/-- A two-player hand whose chips end at zero for player 0: the state
just before the hand-end step. -/
def c9St : GameState :=
  { players := [0, 1],
    chips := fun p => if p = 0 then 0 else 50,
    playerCards := fun _ => [],
    community := [], deck := [],
    pot := 0, currentBet := 0,
    playerBets := fun _ => 0,
    folded := [], allIn := [],
    dealerIndex := 0, sbAmount := 10, bbAmount := 20 }

/-- A trivially closed betting state: nobody owes anything. -/
def c4wSt : GameState :=
  { players := [0, 1],
    chips := fun _ => 1000,
    playerCards := fun _ => [],
    community := [], deck := [],
    pot := 0, currentBet := 0,
    playerBets := fun _ => 0,
    folded := [], allIn := [],
    dealerIndex := 0, sbAmount := 10, bbAmount := 20 }

/-- Seven distinct cards for the `best_hand` witness. -/
def c5Seven : List Card :=
  [⟨Face.f2, Suit.hearts⟩, ⟨Face.f5, Suit.diamonds⟩, ⟨Face.f9, Suit.clubs⟩,
   ⟨Face.j, Suit.spades⟩, ⟨Face.a, Suit.hearts⟩, ⟨Face.a, Suit.diamonds⟩,
   ⟨Face.f3, Suit.clubs⟩]

/-- A starting state for the chip-invariant witness. -/
def c10St : GameState :=
  { players := [3, 4],
    chips := fun _ => 50,
    playerCards := fun _ => [],
    community := [], deck := [],
    pot := 0, currentBet := 0,
    playerBets := fun _ => 0,
    folded := [], allIn := [],
    dealerIndex := 0, sbAmount := 10, bbAmount := 20 }

/-- A sequence of chip operations for the invariant witness, including
an over-stack raise that goes all-in. -/
def c10Ops : List ChipOp :=
  [ChipOp.blindBet 3 10, ChipOp.blindBet 4 20,
   ChipOp.act 3 (PAction.raiseTo 60), ChipOp.act 4 PAction.callCheck,
   ChipOp.act 3 PAction.fold]

/-- A room chip dict for the blind witness: ids 0-5 hold 50 chips. -/
def c10Room : RoomBetState :=
  { players := fun x => if x ≤ 5 then some 50 else none,
    pot := 0, currentBet := 0, playerBets := fun _ => 0 }

/-- The state `place_blind c10Room 1 10` produces. -/
def c10Room' : RoomBetState :=
  { players := fun x => if x = 1 then some ((50 : Int) - 10) else c10Room.players x,
    pot := c10Room.pot + 10,
    currentBet := 10,
    playerBets := fun x => if x = 1 then 10 else c10Room.playerBets x }

/-- Room state used by the `get_next_to_act` witness. -/
def c8wSt : RoomState :=
  { seatedPlayers := [1, 2], dealerPosition := 0,
    currentRound := GameRound.flop, actionPosition := 1 }

/-! ## Order lemmas for the evaluator's key comparison -/

lemma natListGt_irrefl : ∀ l : List Nat, natListGt l l = false
  | [] => rfl
  | x :: xs => by simp [natListGt, natListGt_irrefl xs]

lemma natListGt_cons_iff {x y : Nat} {xs ys : List Nat} :
    natListGt (x :: xs) (y :: ys) = true ↔
      (y < x ∨ (x = y ∧ natListGt xs ys = true)) := by
  show (if y < x then true else if x = y then natListGt xs ys else false) = true ↔ _
  by_cases h1 : y < x
  · rw [if_pos h1]
    simp [h1]
  · rw [if_neg h1]
    by_cases h2 : x = y
    · rw [if_pos h2]
      simp [h1, h2]
    · rw [if_neg h2]
      simp [h1, h2]

lemma natListGt_trans : ∀ a b c : List Nat,
    natListGt a b = true → natListGt b c = true → natListGt a c = true
  | [], _, _, h, _ => by simp [natListGt] at h
  | _ :: _, [], _, _, h2 => by simp [natListGt] at h2
  | _ :: _, _ :: _, [], _, _ => by simp [natListGt]
  | x :: xs, y :: ys, z :: zs, h1, h2 => by
    rw [natListGt_cons_iff] at h1 h2 ⊢
    rcases h1 with h1 | ⟨h1e, h1t⟩ <;> rcases h2 with h2 | ⟨h2e, h2t⟩
    · exact Or.inl (by omega)
    · exact Or.inl (by omega)
    · exact Or.inl (by omega)
    · exact Or.inr ⟨by omega, natListGt_trans xs ys zs h1t h2t⟩

lemma natListGt_total : ∀ a b : List Nat,
    natListGt a b = false → natListGt b a = false → a = b
  | [], [], _, _ => rfl
  | [], _ :: _, _, h2 => by simp [natListGt] at h2
  | _ :: _, [], h1, _ => by simp [natListGt] at h1
  | x :: xs, y :: ys, h1, h2 => by
    have n1 : ¬(y < x ∨ (x = y ∧ natListGt xs ys = true)) := by
      rw [← natListGt_cons_iff]; simp [h1]
    have n2 : ¬(x < y ∨ (y = x ∧ natListGt ys xs = true)) := by
      rw [← natListGt_cons_iff]; simp [h2]
    push_neg at n1 n2
    have he : x = y := by
      have e1 := n1.1
      have e2 := n2.1
      omega
    subst he
    have t1 : natListGt xs ys = false := by
      have hne := n1.2 rfl
      cases h : natListGt xs ys
      · rfl
      · exact absurd h hne
    have t2 : natListGt ys xs = false := by
      have hne := n2.2 rfl
      cases h : natListGt ys xs
      · rfl
      · exact absurd h hne
    rw [natListGt_total xs ys t1 t2]

lemma keyGt_iff {a b : Int × List Nat} :
    keyGt a b = true ↔ (b.1 < a.1 ∨ (a.1 = b.1 ∧ natListGt a.2 b.2 = true)) := by
  show (if b.1 < a.1 then true else if a.1 = b.1 then natListGt a.2 b.2 else false) = true ↔ _
  by_cases h1 : b.1 < a.1
  · rw [if_pos h1]
    simp [h1]
  · rw [if_neg h1]
    by_cases h2 : a.1 = b.1
    · rw [if_pos h2]
      simp [h1, h2]
    · rw [if_neg h2]
      simp [h1, h2]

lemma keyGt_irrefl (a : Int × List Nat) : keyGt a a = false := by
  cases h : keyGt a a
  · rfl
  · rw [keyGt_iff] at h
    rcases h with h | ⟨_, h⟩
    · omega
    · rw [natListGt_irrefl] at h
      exact absurd h (by simp)

lemma keyGt_trans {a b c : Int × List Nat}
    (h1 : keyGt a b = true) (h2 : keyGt b c = true) : keyGt a c = true := by
  rw [keyGt_iff] at h1 h2 ⊢
  rcases h1 with h1 | ⟨h1e, h1t⟩ <;> rcases h2 with h2 | ⟨h2e, h2t⟩
  · exact Or.inl (by omega)
  · exact Or.inl (by omega)
  · exact Or.inl (by omega)
  · exact Or.inr ⟨by omega, natListGt_trans _ _ _ h1t h2t⟩

lemma keyGt_total {a b : Int × List Nat}
    (h1 : keyGt a b = false) (h2 : keyGt b a = false) : a = b := by
  have n1 : ¬(b.1 < a.1 ∨ (a.1 = b.1 ∧ natListGt a.2 b.2 = true)) := by
    rw [← keyGt_iff]; simp [h1]
  have n2 : ¬(a.1 < b.1 ∨ (b.1 = a.1 ∧ natListGt b.2 a.2 = true)) := by
    rw [← keyGt_iff]; simp [h2]
  push_neg at n1 n2
  have he : a.1 = b.1 := by
    have e1 := n1.1
    have e2 := n2.1
    omega
  have t1 : natListGt a.2 b.2 = false := by
    have hne := n1.2 he
    cases h : natListGt a.2 b.2
    · rfl
    · exact absurd h hne
  have t2 : natListGt b.2 a.2 = false := by
    have hne := n2.2 he.symm
    cases h : natListGt b.2 a.2
    · rfl
    · exact absurd h hne
  exact Prod.ext he (natListGt_total _ _ t1 t2)

lemma natListGt_map_faceIndex : ∀ l m : List Face,
    natListGt (l.map faceIndex) (m.map faceIndex) = tieGtB l m
  | [], m => by cases m <;> simp [natListGt, tieGtB]
  | _ :: _, [] => by simp [natListGt, tieGtB]
  | x :: xs, y :: ys => by
    simp only [List.map_cons, natListGt, tieGtB]
    rw [natListGt_map_faceIndex xs ys]

lemma keyGt_keyOf (x y : Nat × List Face) :
    keyGt (keyOf x) (keyOf y) = handGtB x y := by
  simp only [keyGt, keyOf, handGtB]
  rcases Nat.lt_trichotomy x.1 y.1 with h | h | h
  · have h1 : -(y.1 : Int) < -(x.1 : Int) := by omega
    simp [h1, h]
  · have h1 : ¬(-(y.1 : Int) < -(x.1 : Int)) := by omega
    have h2 : -(x.1 : Int) = -(y.1 : Int) := by omega
    have h3 : ¬ x.1 < y.1 := by omega
    simp only [if_neg h1, if_pos h2, if_neg h3, if_pos h, natListGt_map_faceIndex]
  · have h1 : ¬(-(y.1 : Int) < -(x.1 : Int)) := by omega
    have h2 : ¬(-(x.1 : Int) = -(y.1 : Int)) := by omega
    have h3 : ¬ x.1 < y.1 := by omega
    have h4 : ¬ x.1 = y.1 := by omega
    simp [h1, h2, h3, h4]

lemma faceIndex_injective : Function.Injective faceIndex := by decide

lemma map_faceIndex_inj : ∀ l m : List Face,
    l.map faceIndex = m.map faceIndex → l = m
  | [], [], _ => rfl
  | [], _ :: _, h => by simp at h
  | _ :: _, [], h => by simp at h
  | x :: xs, y :: ys, h => by
    simp only [List.map_cons, List.cons.injEq] at h
    rw [faceIndex_injective h.1, map_faceIndex_inj xs ys h.2]

lemma keyOf_inj {x y : Nat × List Face} (h : keyOf x = keyOf y) : x = y := by
  simp only [keyOf, Prod.mk.injEq] at h
  have h1 : x.1 = y.1 := by omega
  exact Prod.ext h1 (map_faceIndex_inj _ _ h.2)

lemma handGe_of_not_keyGt {a b : Nat × List Face}
    (h : keyGt (keyOf a) (keyOf b) = false) : handGe b a := by
  cases hba : keyGt (keyOf b) (keyOf a) with
  | true => exact Or.inr (by rw [← keyGt_keyOf]; exact hba)
  | false => exact Or.inl (keyOf_inj (keyGt_total h hba)).symm

lemma combinations_length : ∀ (k : Nat) (l : List α),
    (combinations k l).length = l.length.choose k
  | 0, l => by simp [combinations]
  | k + 1, [] => by simp [combinations]
  | k + 1, x :: xs => by
    simp only [combinations, List.length_append, List.length_map,
      combinations_length k xs, combinations_length (k + 1) xs,
      List.length_cons, Nat.choose_succ_succ]

/-- The invariant of the `best_hand` accumulator loop: starting from a
consistent best entry, the loop ends on a consistent best entry that
came from the pool, is at least the starting entry, and is not beaten
by any pool element. -/
lemma bh_loop_some : ∀ (l : List (List Card)) (bk : Int × List Nat)
    (bev : Nat × List Face), bk = keyOf bev →
    ∃ fk fev, bh_loop l (some (bk, bev)) = some (fk, fev) ∧ fk = keyOf fev ∧
      (fev = bev ∨ ∃ five ∈ l, fev = evaluate_hand five) ∧
      keyGt bk fk = false ∧
      ∀ five ∈ l, keyGt (keyOf (evaluate_hand five)) fk = false
  | [], bk, bev, hbk => by
    refine ⟨bk, bev, rfl, hbk, Or.inl rfl, keyGt_irrefl bk, ?_⟩
    intro five hf
    exact absurd hf (List.not_mem_nil five)
  | five :: rest, bk, bev, hbk => by
    by_cases hc : keyGt (keyOf (evaluate_hand five)) bk = true
    · have hstep : bh_loop (five :: rest) (some (bk, bev)) =
          bh_loop rest (some (keyOf (evaluate_hand five), evaluate_hand five)) := by
        simp [bh_loop, hc]
      obtain ⟨fk, fev, heq, hkey, hmem, hge, hall⟩ :=
        bh_loop_some rest (keyOf (evaluate_hand five)) (evaluate_hand five) rfl
      refine ⟨fk, fev, hstep ▸ heq, hkey, ?_, ?_, ?_⟩
      · rcases hmem with h1 | ⟨g, hg, h2⟩
        · exact Or.inr ⟨five, List.mem_cons_self five rest, h1⟩
        · exact Or.inr ⟨g, List.mem_cons_of_mem five hg, h2⟩
      · cases hbf : keyGt bk fk with
        | false => rfl
        | true => exact absurd (keyGt_trans hc hbf) (by simp [hge])
      · intro g hg
        rcases List.mem_cons.mp hg with h1 | h1
        · rw [h1]; exact hge
        · exact hall g h1
    · have hc' : keyGt (keyOf (evaluate_hand five)) bk = false := by
        cases h : keyGt (keyOf (evaluate_hand five)) bk
        · rfl
        · exact absurd h hc
      have hstep : bh_loop (five :: rest) (some (bk, bev)) =
          bh_loop rest (some (bk, bev)) := by
        simp [bh_loop, hc']
      obtain ⟨fk, fev, heq, hkey, hmem, hge, hall⟩ := bh_loop_some rest bk bev hbk
      refine ⟨fk, fev, hstep ▸ heq, hkey, ?_, hge, ?_⟩
      · rcases hmem with h1 | ⟨g, hg, h2⟩
        · exact Or.inl h1
        · exact Or.inr ⟨g, List.mem_cons_of_mem five hg, h2⟩
      · intro g hg
        rcases List.mem_cons.mp hg with h1 | h1
        · rw [h1]
          cases hgf : keyGt (keyOf (evaluate_hand five)) fk with
          | false => rfl
          | true =>
            cases hbf : keyGt bk (keyOf (evaluate_hand five)) with
            | true => exact absurd (keyGt_trans hbf hgf) (by simp [hge])
            | false =>
              have : keyOf (evaluate_hand five) = bk := keyGt_total hc' hbf
              rw [this] at hgf
              exact absurd hgf (by simp [hge])
        · exact hall g h1

/-! ## Lemmas for the betting round and chip invariant -/

lemma betting_round_allMatched : ∀ (fuel : Nat) (st : GameState) (i : Nat)
    (script : List PAction) (actors : List Nat) (res : GameState × List Nat),
    betting_round fuel st i script actors = some res → allMatched res.1 = true
  | 0, _, _, _, _, _, h => by simp [betting_round] at h
  | fuel + 1, st, i, script, actors, res, h => by
    cases script with
    | nil =>
      simp only [betting_round] at h
      split at h
      · rename_i hm
        cases h
        exact hm
      · split at h
        · exact betting_round_allMatched fuel _ _ _ _ _ h
        · exact absurd h (by simp)
    | cons act rest =>
      simp only [betting_round] at h
      split at h
      · rename_i hm
        cases h
        exact hm
      · split at h
        · exact betting_round_allMatched fuel _ _ _ _ _ h
        · exact betting_round_allMatched fuel _ _ _ _ _ h

lemma betting_round_stops (fuel : Nat) (st : GameState) (i : Nat)
    (script : List PAction) (actors : List Nat) (hm : allMatched st = true) :
    betting_round (fuel + 1) st i script actors = some (st, actors.reverse) := by
  rw [betting_round, if_pos hm]

lemma place_bet_nonneg (st : GameState) (p : Nat) (amount : Int)
    (h : ∀ q, 0 ≤ st.chips q) : ∀ q, 0 ≤ (place_bet st p amount).chips q := by
  intro q
  have hp := h p
  have hq := h q
  simp only [place_bet]
  by_cases hqp : q = p
  · subst hqp
    simp only [if_pos rfl]
    split <;> omega
  · simp only [if_neg hqp]
    exact hq

lemma applyAction_nonneg (st : GameState) (p : Nat) (a : PAction)
    (h : ∀ q, 0 ≤ st.chips q) : ∀ q, 0 ≤ (applyAction st p a).chips q := by
  cases a with
  | fold => intro q; simp only [applyAction]; exact h q
  | callCheck => exact place_bet_nonneg _ _ _ h
  | raiseTo amount =>
    simp only [applyAction]
    split
    · exact h
    · intro q
      exact place_bet_nonneg st p (amount - st.playerBets p) h q

lemma chipOps_nonneg : ∀ (ops : List ChipOp) (st : GameState),
    (∀ q, 0 ≤ st.chips q) → ∀ q, 0 ≤ (ops.foldl applyChipOp st).chips q
  | [], _, h => h
  | op :: ops, st, h => by
    have h1 : ∀ q, 0 ≤ (applyChipOp st op).chips q := by
      cases op with
      | act p a => exact applyAction_nonneg st p a h
      | blindBet p amount => exact place_bet_nonneg st p amount h
    exact chipOps_nonneg ops (applyChipOp st op) h1

lemma place_blind_nonneg (r : RoomBetState) (pid : Nat) (amount : Int)
    (r' : RoomBetState) (h : ∀ x c, r.players x = some c → 0 ≤ c)
    (hok : place_blind r pid amount = Except.ok r') :
    ∀ x c, r'.players x = some c → 0 ≤ c := by
  intro x c hxc
  simp only [place_blind] at hok
  split at hok
  · exact absurd hok (by simp)
  · rename_i c0 hp
    split at hok
    · exact absurd hok (by simp)
    · rename_i hle
      have h0 := h pid c0 hp
      injection hok with hok'
      rw [← hok'] at hxc
      have hxc' : (if x = pid then some (c0 - amount) else r.players x) = some c := hxc
      by_cases hx : x = pid
      · rw [if_pos hx] at hxc'
        injection hxc' with hc
        omega
      · rw [if_neg hx] at hxc'
        exact h x c hxc'

/-! ## Claim theorems -/

/-- C1: refuted by the code (code bug).  In the two-player hand where
the small blind folds preflop, exactly one non-folded player (the big
blind, player 0) remains; `start_hand` then skips every remaining
street and the showdown, but no branch ever awards the pot: player 0's
stack stays at 980 while 30 chips sit in the pot, instead of rising by
the pot to 1010 as the claim requires. -/
theorem C1_fold_win_pot_vanishes :
    (start_hand 20 c1St [PAction.fold] [] [] []).map (fun st => st.chips 0) = some 980 ∧
    (start_hand 20 c1St [PAction.fold] [] [] []).map (fun st => st.chips 1) = some 990 ∧
    (start_hand 20 c1St [PAction.fold] [] [] []).map (fun st => st.pot) = some 30 ∧
    (start_hand 20 c1St [PAction.fold] [] [] []).map (fun st => st.players) = some [0, 1] ∧
    (start_hand 20 c1St [PAction.fold] [] [] []).map (fun st => st.folded) = some [1] ∧
    (start_hand 20 c1St [PAction.fold] [] [] []).map (fun st => st.community) =
      some ([] : List Card) ∧
    (980 : Int) ≠ 1000 - 20 + 30 := by decide

/-- C2: refuted by the code (code bug).  The wheel `A,2,3,4,5` with
mixed suits is not recognised by `straight` (the sort key uses the
high-ace order even when the low-ace order is selected for the
containment test, so the joined sequence `2 3 4 5 a` never occurs in
`a 2 3 4 5 6 7 8 9 10 j q k`); `evaluate_hand` therefore classifies
the wheel as HighCard (category index 8) with tiebreak
`[A,5,4,3,2]`, not as Straight (index 4) with tiebreak `[5]`. -/
theorem C2_wheel_misclassified :
    straight wheelHand = none ∧
    evaluate_hand wheelHand = (8, [Face.a, Face.f5, Face.f4, Face.f3, Face.f2]) ∧
    evaluate_hand wheelHand ≠ (4, [Face.f5]) := by decide

/-- C3: refuted by the code (code bug).  At a showdown with a 25-chip
pot and two tied winners (both play the board's broadway straight),
`showdown` gives each winner `pot // 2 = 12` chips; the total awarded
is 24, so one chip of the pot is silently discarded instead of being
assigned to a winner as the claim requires. -/
theorem C3_showdown_remainder_discarded :
    best_hand (c3St.playerCards 1 ++ c3St.community) = some (4, [Face.a]) ∧
    best_hand (c3St.playerCards 2 ++ c3St.community) = some (4, [Face.a]) ∧
    c3St.pot = 25 ∧
    (showdown c3St).chips 1 = 112 ∧ (showdown c3St).chips 2 = 112 ∧
    ((showdown c3St).chips 1 - c3St.chips 1) + ((showdown c3St).chips 2 - c3St.chips 2) = 24 ∧
    (24 : Int) ≠ 25 := by decide

/-- C4 (amended): the betting round of `PokerGame.betting_round`
terminates exactly when every non-folded player's committed amount
equals `current_bet` or the player is all-in — with no requirement
that a full circuit of action has occurred since the last bet or
raise.  Whenever the loop returns a final state, that state satisfies
`allMatched`; and from any state already satisfying `allMatched` the
loop returns at once without prompting anyone. -/
theorem C4_round_close_condition :
    (∀ (fuel : Nat) (st : GameState) (i : Nat) (script : List PAction)
        (actors : List Nat) (res : GameState × List Nat),
        betting_round fuel st i script actors = some res → allMatched res.1 = true) ∧
    (∀ (fuel : Nat) (st : GameState) (i : Nat) (script : List PAction)
        (actors : List Nat), allMatched st = true →
        betting_round (fuel + 1) st i script actors = some (st, actors.reverse)) :=
  ⟨betting_round_allMatched, betting_round_stops⟩

/-- C4 witness: a concrete already-closed state, on which the round
returns immediately, and the returned state satisfies `allMatched`. -/
theorem C4_round_close_condition_witness :
    allMatched c4wSt = true ∧
    betting_round 1 c4wSt 0 [] [] = some (c4wSt, List.reverse []) ∧
    allMatched (c4wSt, (List.reverse [] : List Nat)).1 = true :=
  ⟨by decide,
   C4_round_close_condition.2 0 c4wSt 0 [] [] (by decide),
   C4_round_close_condition.1 1 c4wSt 0 [] [] (c4wSt, List.reverse [])
     (C4_round_close_condition.2 0 c4wSt 0 [] [] (by decide))⟩

/-- C4 counterexample to the claim as stated: three players, dealer
seat 0, blinds posted by seats 1 and 2; the script has seat 0 and then
seat 1 call.  The round then terminates (the returned prompt trace is
exactly `[0, 1]`), although seat 2 — the big blind, non-folded and not
all-in — was never prompted at all during the round, hence certainly
has not acted since the last bet (its own blind).  The claim's
"one full circuit since the last aggressor" condition is therefore not
part of the code's termination test. -/
theorem C4_big_blind_skipped :
    (betting_round 10 c4St 0 [PAction.callCheck, PAction.callCheck] []).map
        (fun r => (r.2, r.1.folded, r.1.allIn, r.1.playerBets 2, r.1.currentBet)) =
      some ([0, 1], [], [], 20, 20) ∧
    (2 : Nat) ∈ c4St.players ∧ (2 : Nat) ∉ ([0, 1] : List Nat) := by decide

/-- C5: confirmed.  For any 7 distinct cards there are exactly 21
five-card subsets; `best_hand` returns the evaluation of one of them,
and that evaluation is ≥ every subset's evaluation under the ordering
that compares the category first (index 0, straight flush, strongest)
and, on a category tie, the tiebreak sequences lexicographically.  The
ordering is antisymmetric: two results each ≥ the other are exactly
equal, so identical category-and-tiebreak pairs compare as an exact
tie. -/
theorem C5_best_hand_max (seven : List Card) (h7 : seven.length = 7)
    (_hd : seven.Nodup) :
    (combinations 5 seven).length = 21 ∧
    (∃ r, best_hand seven = some r ∧
      (∃ five ∈ combinations 5 seven, r = evaluate_hand five) ∧
      ∀ five ∈ combinations 5 seven, handGe r (evaluate_hand five)) ∧
    (∀ x y : Nat × List Face, handGe x y → handGe y x → x = y) := by
  have hlen : (combinations 5 seven).length = 21 := by
    rw [combinations_length, h7]
    decide
  refine ⟨hlen, ?_, ?_⟩
  · cases hcomb : combinations 5 seven with
    | nil => rw [hcomb] at hlen; simp at hlen
    | cons f rest =>
      have hstep : best_hand seven =
          (bh_loop rest (some (keyOf (evaluate_hand f), evaluate_hand f))).map
            (fun x => x.2) := by
        rw [best_hand, hcomb]
        rfl
      obtain ⟨fk, fev, heq, hkey, hmem, hge, hall⟩ :=
        bh_loop_some rest (keyOf (evaluate_hand f)) (evaluate_hand f) rfl
      refine ⟨fev, ?_, ?_, ?_⟩
      · rw [hstep, heq]
        rfl
      · rcases hmem with h1 | ⟨g, hg, h2⟩
        · exact ⟨f, List.mem_cons_self f rest, h1⟩
        · exact ⟨g, List.mem_cons_of_mem f hg, h2⟩
      · intro five hfive
        rcases List.mem_cons.mp hfive with h1 | h1
        · rw [h1]
          rw [hkey] at hge
          exact handGe_of_not_keyGt hge
        · have hx := hall five h1
          rw [hkey] at hx
          exact handGe_of_not_keyGt hx
  · intro x y hxy hyx
    rcases hxy with h1 | h1
    · exact h1
    · rcases hyx with h2 | h2
      · exact h2.symm
      · rw [← keyGt_keyOf] at h1 h2
        have := keyGt_trans h1 h2
        rw [keyGt_irrefl] at this
        exact absurd this (by simp)

/-- C5 witness: the theorem applied to a concrete list of 7 distinct
cards. -/
theorem C5_best_hand_max_witness :
    c5Seven.length = 7 ∧ c5Seven.Nodup ∧
    ((combinations 5 c5Seven).length = 21 ∧
     (∃ r, best_hand c5Seven = some r ∧
       (∃ five ∈ combinations 5 c5Seven, r = evaluate_hand five) ∧
       ∀ five ∈ combinations 5 c5Seven, handGe r (evaluate_hand five)) ∧
     (∀ x y : Nat × List Face, handGe x y → handGe y x → x = y)) :=
  ⟨by decide, by decide, C5_best_hand_max c5Seven (by decide) (by decide)⟩

/-- C6: refuted by the code (code bug).  `PokerRoom.get_positions` and
`PokerRoom.get_next_to_act` do implement the heads-up reversal
(dealer = small blind; big blind first to act preflop; dealer first
postflop), but `PokerGame.start_hand` posts the blinds with the
unconditional multi-player rule `sb = dealer+1`, `bb = dealer+2`:
with 2 seated players and the dealer at seat 0 (player 5), the
non-dealer seat posts the small blind (10) and the dealer posts the
big blind (20) — the opposite of the claim. -/
theorem C6_headsup_blind_reversal_missing :
    get_positions [5, 7] 0 = some ⟨5, 5, 7, none, none, none⟩ ∧
    (get_next_to_act ⟨[5, 7], 0, GameRound.preflop, 0⟩).1 = some 7 ∧
    (get_next_to_act ⟨[5, 7], 0, GameRound.flop, 0⟩).1 = some 5 ∧
    c6St.dealerIndex = 0 ∧ sb_index c6St = 1 ∧ bb_index c6St = 0 ∧
    (post_blinds c6St).playerBets 5 = 20 ∧
    (post_blinds c6St).playerBets 7 = 10 := by decide

/-- C7 (amended): `BetModal.on_submit` rejects any submitted raise-to
amount below `current_bet + last_raise_amount` (equivalently, any
amount failing `validate_raise`) regardless of the player's stack —
there is no all-in exception on the rejection path.  A submitted
amount meeting the minimum is accepted, capped at the player's
remaining chips with the all-in flag set when it exceeds them. -/
theorem C7_short_raise_policy (current_bet last_raise_amount amount max_chips : Int) :
    (validate_raise current_bet last_raise_amount amount = false →
      on_submit (raise_minimum current_bet last_raise_amount) amount max_chips = none) ∧
    (validate_raise current_bet last_raise_amount amount = true →
      on_submit (raise_minimum current_bet last_raise_amount) amount max_chips =
        some (min amount max_chips, decide (max_chips < amount))) := by
  constructor
  · intro h
    simp only [validate_raise, decide_eq_false_iff_not, not_le] at h
    simp only [on_submit, raise_minimum]
    rw [if_pos (by omega)]
  · intro h
    simp only [validate_raise, decide_eq_true_eq] at h
    simp only [on_submit, raise_minimum]
    rw [if_neg (by omega)]
    by_cases hc : max_chips < amount
    · rw [if_pos hc]
      have h1 : min amount max_chips = max_chips := by omega
      simp [h1, hc]
    · rw [if_neg hc]
      have h1 : min amount max_chips = amount := by omega
      simp [h1, hc]

/-- C7 witness: a valid raise to 50 over `current_bet = 20`,
`last_raise = 20`, against a 30-chip stack, is accepted capped at 30
with the all-in flag. -/
theorem C7_short_raise_policy_witness :
    validate_raise 20 20 50 = true ∧
    on_submit (raise_minimum 20 20) 50 30 =
      some (min (50 : Int) 30, decide ((30 : Int) < 50)) :=
  ⟨by decide, (C7_short_raise_policy 20 20 50 30).2 (by decide)⟩

/-- C7 counterexample to the claim as stated: with `current_bet = 20`
and `last_raise = 20` (minimum 40), a player holding only 15 chips who
submits a raise to 30 — a short raise their stack cannot legalise — is
simply rejected (`none`); the claim instead requires this to be
accepted as an all-in raise of the full remaining 15-chip stack
(`some (15, true)`). -/
theorem C7_short_allin_rejected :
    on_submit (raise_minimum 20 20) 30 15 = none ∧
    on_submit (raise_minimum 20 20) 30 15 ≠ some (15, true) := by decide

/-- C8 (amended): `get_next_to_act` is not a pure read: it returns the
player at the (possibly re-initialised) action position and advances
the stored `action_position` cursor by one seat.  Every other room
field is left unchanged, and the mutation is deterministic. -/
theorem C8_next_to_act_mutating (st : RoomState) (h : st.seatedPlayers ≠ []) :
    (get_next_to_act st).1 =
      some (st.seatedPlayers.getD (effective_action_position st) 0) ∧
    (get_next_to_act st).2.seatedPlayers = st.seatedPlayers ∧
    (get_next_to_act st).2.dealerPosition = st.dealerPosition ∧
    (get_next_to_act st).2.currentRound = st.currentRound ∧
    (get_next_to_act st).2.actionPosition =
      (effective_action_position st + 1) % st.seatedPlayers.length := by
  simp [get_next_to_act, if_neg h]

/-- C8 witness: the theorem applied to a concrete 2-seat room at the
flop with the cursor at 1. -/
theorem C8_next_to_act_mutating_witness :
    c8wSt.seatedPlayers ≠ [] ∧
    ((get_next_to_act c8wSt).1 =
       some (c8wSt.seatedPlayers.getD (effective_action_position c8wSt) 0) ∧
     (get_next_to_act c8wSt).2.seatedPlayers = c8wSt.seatedPlayers ∧
     (get_next_to_act c8wSt).2.dealerPosition = c8wSt.dealerPosition ∧
     (get_next_to_act c8wSt).2.currentRound = c8wSt.currentRound ∧
     (get_next_to_act c8wSt).2.actionPosition =
       (effective_action_position c8wSt + 1) % c8wSt.seatedPlayers.length) :=
  ⟨by decide, C8_next_to_act_mutating c8wSt (by decide)⟩

/-- C8 counterexample to the claim as stated: on a 3-player preflop
room, two consecutive next-to-act queries with no action applied in
between return different players (10, then 20), and the first query
already changed the action-position cursor. -/
theorem C8_next_to_act_not_pure :
    (get_next_to_act c8St).1 = some 10 ∧
    (get_next_to_act (get_next_to_act c8St).2).1 = some 20 ∧
    (get_next_to_act c8St).1 ≠ (get_next_to_act (get_next_to_act c8St).2).1 ∧
    (get_next_to_act c8St).2.actionPosition ≠ c8St.actionPosition := by decide

/-- C9 (amended): the hand-end step of `PokerGame.start_hand` rotates
the dealer index one seat forward (modulo the pre-filter seat count)
and then removes from the seated list every player whose stack is not
positive; chips, pot, folded set and community cards are untouched.
Zero-stack players are therefore removed by the core, not kept
seated. -/
theorem C9_hand_end_filters_busted (st : GameState) :
    (handEnd st).players = st.players.filter (fun p => decide (0 < st.chips p)) ∧
    (handEnd st).dealerIndex = (st.dealerIndex + 1) % st.players.length ∧
    (handEnd st).chips = st.chips ∧
    (handEnd st).pot = st.pot ∧
    (handEnd st).folded = st.folded ∧
    (handEnd st).community = st.community :=
  ⟨rfl, rfl, rfl, rfl, rfl, rfl⟩

/-- C9 counterexample to the claim as stated: a player whose stack
reached zero (player 0) is removed from the seated list by the
hand-end step, contradicting "remains seated at the table". -/
theorem C9_busted_player_removed :
    c9St.chips 0 = 0 ∧ c9St.players = [0, 1] ∧
    (handEnd c9St).players = [1] ∧ (0 : Nat) ∉ (handEnd c9St).players := by decide

/-- C10: confirmed.  Starting from non-negative stacks, every sequence
of chip-moving operations (blind posting and fold/check/call/raise
through `place_bet`, which caps any over-stack amount at the remaining
stack) keeps every stack non-negative; and `PokerRoom.place_blind`,
which rejects a blind exceeding the stack, also preserves
non-negativity of every room stack it returns. -/
theorem C10_stacks_nonneg :
    (∀ (st : GameState) (ops : List ChipOp), (∀ q, 0 ≤ st.chips q) →
      ∀ q, 0 ≤ (ops.foldl applyChipOp st).chips q) ∧
    (∀ (r : RoomBetState) (pid : Nat) (amount : Int) (r' : RoomBetState),
      (∀ x c, r.players x = some c → 0 ≤ c) →
      place_blind r pid amount = Except.ok r' →
      ∀ x c, r'.players x = some c → 0 ≤ c) :=
  ⟨fun st ops h => chipOps_nonneg ops st h, place_blind_nonneg⟩

/-- C10 witness: a concrete game (50-chip stacks, blinds, an over-stack
all-in raise, a call, a fold) and a concrete room blind. -/
theorem C10_stacks_nonneg_witness :
    (∀ q, 0 ≤ c10St.chips q) ∧
    (0 ≤ (c10Ops.foldl applyChipOp c10St).chips 3) ∧
    place_blind c10Room 1 10 = Except.ok c10Room' ∧
    (∀ x c, c10Room'.players x = some c → 0 ≤ c) := by
  refine ⟨fun _ => (show (0 : Int) ≤ 50 by decide), ?_, rfl, ?_⟩
  · exact C10_stacks_nonneg.1 c10St c10Ops (fun _ => (show (0 : Int) ≤ 50 by decide)) 3
  · refine C10_stacks_nonneg.2 c10Room 1 10 c10Room' ?_ rfl
    intro x c h
    by_cases hx : x ≤ 5
    · simp [c10Room, hx] at h
      omega
    · simp [c10Room, hx] at h

